import Mathlib

/-!
Verification development for the Monika key-generator repository
(`Monika(ENG).py` / `Monika(RUS).py`).

The program's pure logic is shallowly embedded below.  Strings are Lean
`String`s (lists of `Char`); Python built-in string operations are modelled
for the character repertoire the program manipulates (ASCII plus the
Cyrillic block used by the word sanitizer, plus the superscript digits
relevant to `str.isdigit`); on all other characters the models act as the
identity, which is faithful for every input the theorems below mention.
File-system effects are made explicit: a word-list or config file is an
`Option (List String)` of its lines (`none` = file absent), and the key
generator returns an explicit effect record (directories created, files
written, success flag).  The random source `secrets.randbelow` is modelled
as an oracle `rand : Nat → Nat` of the successive draw values; since
`secrets.randbelow n` always returns a value `< n`, the draw used for call
number `k` is `rand k % n`, which encodes exactly that range contract.
-/

/-- Python `str.strip()` whitespace, restricted to the ASCII whitespace
characters (space, tab, newline, carriage return, vertical tab, form feed):
the only whitespace the program's inputs can contain that the claims turn
on. -/
def pyIsSpace (c : Char) : Bool :=
  c = ' ' || c = '\t' || c = '\n' || c = '\x0d' || c = '\x0b' || c = '\x0c'

/-- Python `str.strip()` on a list of characters: drop leading and trailing
whitespace. -/
def pyStripList (cs : List Char) : List Char :=
  ((cs.dropWhile pyIsSpace).reverse.dropWhile pyIsSpace).reverse

/-- Python `str.strip()`. -/
def pyStrip (s : String) : String :=
  String.mk (pyStripList s.data)

/-- Python `str.lower()` on one character, restricted to ASCII letters and
the Cyrillic letters of the sanitizer's alphabet (А–Я → а–я, Ё → ё); the
identity elsewhere. -/
def pyLowerChar (c : Char) : Char :=
  if 'A' ≤ c && c ≤ 'Z' then Char.ofNat (c.toNat + 32)
  else if 'А' ≤ c && c ≤ 'Я' then Char.ofNat (c.toNat + 32)
  else if c = 'Ё' then 'ё'
  else c

/-- The apostrophe character (U+0027). -/
def apostrophe : Char := Char.ofNat 39

/-- The allowed alphabet of `sanitize_word`: the literal
`set("abcdefghijklmnopqrstuvwxyzабвгдеёжзийклмнопрстуфхцчшщъыьэюя-'")`
from the source. -/
def allowedChars : List Char :=
  "abcdefghijklmnopqrstuvwxyzабвгдеёжзийклмнопрстуфхцчшщъыьэюя-".data ++ [apostrophe]

/-- Core of `sanitize_word` on character lists:
`w = word.strip().replace(" ", "").lower()`; return `[]` if `w` is empty,
or if any character of `w` is outside `allowedChars`; otherwise `w`.
(The source's early-return loop over the characters is extensionally the
`all` check.) -/
def sanitizeCore (cs : List Char) : List Char :=
  let w := ((pyStripList cs).filter (fun c => c ≠ ' ')).map pyLowerChar
  if w = [] then []
  else if w.all (fun c => allowedChars.contains c) then w
  else []

/-- `sanitize_word` from `Monika(ENG).py` (lines 100-108). -/
def sanitize_word (word : String) : String :=
  String.mk (sanitizeCore word.data)

example : sanitize_word "He llo" = "hello" := by decide
example : sanitize_word "  Hello  " = "hello" := by decide
example : sanitize_word "he\tllo" = "" := by decide
example : sanitize_word "" = "" := by decide
example : sanitize_word "ab9" = "" := by decide
example : sanitize_word "Ёжик" = "ёжик" := by decide

/-- The spec's sanitizer algorithm, stated from its words: "strip
leading/trailing whitespace, remove all internal whitespace, lower-case.
Reject (return empty) if the result is empty or contains any character
outside the allowed set". Note "remove all internal whitespace", not just
space characters: this is the definition the code is compared against. -/
def sanitize_spec (word : String) : String :=
  let w := ((pyStripList word.data).filter (fun c => ¬ pyIsSpace c)).map pyLowerChar
  if w = [] then ""
  else if w.all (fun c => allowedChars.contains c) then String.mk w
  else ""

/-- The amended description of the code's sanitizer: strip leading/trailing
whitespace, remove internal space characters (U+0020) only, lower-case,
then reject if the result is empty or contains any character outside the
allowed set — so internal non-space whitespace (e.g. a tab) is not removed
and causes the whole line to be rejected. -/
def sanitize_amended (word : String) : String :=
  let w := ((pyStripList word.data).filter (fun c => c ≠ ' ')).map pyLowerChar
  if w = [] then ""
  else if w.all (fun c => allowedChars.contains c) then String.mk w
  else ""

/-- The cleaned tokens of `load_and_clean_wordlist` before deduplication:
the loop `for raw in f: s = sanitize_word(raw); if s: cleaned.append(s)`. -/
def cleanedTokens (lines : List String) : List String :=
  (lines.map sanitize_word).filter (fun s => s ≠ "")

/-- Python `list(dict.fromkeys(cleaned))`: keep the first occurrence of
each element, in order; `seen` accumulates the keys already inserted. -/
def dedupFirstAux : List String → List String → List String
  | _, [] => []
  | seen, a :: l =>
    if a ∈ seen then dedupFirstAux seen l
    else a :: dedupFirstAux (a :: seen) l

/-- `load_and_clean_wordlist` from `Monika(ENG).py` (lines 110-121).  The
file system is explicit: `none` means `os.path.exists(path)` is false (the
function reports the error and returns `[]`), `some lines` gives the file's
lines. -/
def load_and_clean_wordlist (file : Option (List String)) : List String :=
  match file with
  | none => []
  | some lines => dedupFirstAux [] (cleanedTokens lines)

example : load_and_clean_wordlist (some ["Hello", "world", "hello ", "b@d", "world"])
    = ["hello", "world"] := by decide
example : load_and_clean_wordlist none = [] := by decide

/-- First-occurrence deduplication, stated from the spec's words
("deduplicate while preserving first-occurrence order"): scan the list
left to right and append each element to the output the first time it is
seen, so the output lists each distinct element once, in the order of the
first occurrences. -/
def dedupFirstSpec (l : List String) : List String :=
  l.foldl (fun acc a => if a ∈ acc then acc else acc ++ [a]) []

example : dedupFirstSpec ["b", "a", "b", "c", "a"] = ["b", "a", "c"] := by decide

/-- The effect of one `generate_keys` run: the directories it created, the
files it wrote (path, content) in order, and whether generation happened
(`false` = the empty-wordlist failure report). -/
structure GenEffect where
  dirsCreated : List String
  writes : List (String × String)
  ok : Bool

/-- The output file path `Path(output_path) / f"key_{file_idx}.txt"`,
with `/` as the path separator. -/
def keyFileName (output_path : String) (file_idx : Nat) : String :=
  output_path ++ "/key_" ++ toString file_idx ++ ".txt"

/-- The list comprehension
`[wordlist[secrets.randbelow(total_words)] for _ in range(words_per_key)]`
for file number `file_idx` (1-based).  The oracle call for draw `j` of this
file is number `(file_idx - 1) * words_per_key + j` overall;
`secrets.randbelow total` always returns a value `< total`, which the
`% wordlist.length` encodes. -/
def selectedWords (rand : Nat → Nat) (wordlist : List String)
    (words_per_key file_idx : Nat) : List String :=
  (List.range words_per_key).map (fun j =>
    wordlist.getD (rand ((file_idx - 1) * words_per_key + j) % wordlist.length) "")

/-- `generate_keys` from `Monika(ENG).py` (lines 145-158): if the wordlist
is empty, report failure and return with no effect; otherwise ensure the
output directory exists and write `key_1.txt` .. `key_{count_files}.txt`,
each the space-join of `words_per_key` sampled words. -/
def generate_keys (rand : Nat → Nat) (wordlist : List String)
    (count_files words_per_key : Nat) (output_path : String) : GenEffect :=
  if wordlist.length = 0 then ⟨[], [], false⟩
  else
    ⟨[output_path],
     (List.range count_files).map (fun i =>
       (keyFileName output_path (i + 1),
        String.intercalate " " (selectedWords rand wordlist words_per_key (i + 1)))),
     true⟩

example :
    (generate_keys (fun k => k) ["alpha", "beta"] 2 3 "out").writes
      = [("out/key_1.txt", "alpha beta alpha"), ("out/key_2.txt", "beta alpha beta")] := by
  decide

/-- ASCII decimal digit (Unicode category Nd, restricted to the ASCII
digits, the ones the program's prompts are concerned with): the characters
accepted by Python `int(s)`. -/
def pyIsDecimalDigit (c : Char) : Bool :=
  '0' ≤ c && c ≤ '9'

/-- Characters with Unicode property Numeric_Type=Digit that are NOT
decimal digits: Python `str.isdigit` accepts them but `int` rejects them.
Restricted to the superscript digits U+00B9, U+00B2, U+00B3 and
U+2070, U+2074–U+2079. -/
def pyIsDigitOnlyChar (c : Char) : Bool :=
  c = '¹' || c = '²' || c = '³' || c = '⁰' || c = '⁴' || c = '⁵'
    || c = '⁶' || c = '⁷' || c = '⁸' || c = '⁹'

/-- Python `str.isdigit()`: nonempty and every character has
Numeric_Type=Digit or =Decimal. -/
def pyIsdigit (s : String) : Bool :=
  s.data ≠ [] && s.data.all (fun c => pyIsDecimalDigit c || pyIsDigitOnlyChar c)

/-- Python `int(s)` for base 10: `some n` when `s` is a nonempty string of
decimal digits (sign and surrounding whitespace, which the program's
call sites never pass once `isdigit` held, are not modelled), `none` when
`int` raises `ValueError`. -/
def pyInt (s : String) : Option Nat :=
  if s.data ≠ [] && s.data.all pyIsDecimalDigit then
    some (s.data.foldl (fun n c => 10 * n + (c.toNat - 48)) 0)
  else none

/-- `is_positive_int_str` from `Monika(ENG).py` (lines 123-124):
`s.isdigit() and int(s) > 0`.  `none` models the `int(s)` call raising
`ValueError` (reachable: `isdigit` accepts digit-type characters, such as
the superscripts, that `int` rejects). -/
def is_positive_int_str (s : String) : Option Bool :=
  if pyIsdigit s then
    match pyInt s with
    | some n => some (decide (0 < n))
    | none => none
  else some false

/-- `prompt_positive_int` from `Monika(ENG).py` (lines 126-135), with the
user's raw response made explicit: strip it; empty → default; a positive
integer string → its value; otherwise warn and fall back to the default.
`none` models an uncaught exception aborting the program. -/
def prompt_positive_int (resp : String) (default : Nat) : Option Nat :=
  let r := pyStrip resp
  if r = "" then some default
  else
    match is_positive_int_str r with
    | none => none
    | some true => pyInt r
    | some false => some default

example : prompt_positive_int "42" 3 = some 42 := by decide
example : prompt_positive_int "" 3 = some 3 := by decide
example : prompt_positive_int "0" 3 = some 3 := by decide
example : prompt_positive_int "abc" 3 = some 3 := by decide
example : prompt_positive_int "²" 3 = none := by decide

/-- `DEFAULT_CONFIG` from the source, as an insertion-ordered association
list (the embedding of a Python dict). -/
def DEFAULT_CONFIG : List (String × String) :=
  [("count_files", "1"), ("words_per_key", "3"), ("output_path", "results")]

/-- Python dict assignment `d[k] = v` on an insertion-ordered association
list: update in place if the key is present, else append. -/
def dictSet (d : List (String × String)) (k v : String) : List (String × String) :=
  if d.any (fun p => p.1 = k) then
    d.map (fun p => if p.1 = k then (k, v) else p)
  else d ++ [(k, v)]

/-- Python `d.get(k)`. -/
def dictGet (d : List (String × String)) (k : String) : Option String :=
  (d.find? (fun p => p.1 = k)).map (fun p => p.2)

/-- Python truthiness of `cfg.get(k)`: false for a missing key and for the
empty string. -/
def dictGetTruthy (d : List (String × String)) (k : String) : Bool :=
  match dictGet d k with
  | none => false
  | some v => v ≠ ""

/-- One iteration of the `read_config` parsing loop: strip the line, skip
blank lines and lines starting with `#`, and on a line containing `=`
split at the first `=` and assign the stripped key/value. -/
def parseConfigLine (cfg : List (String × String)) (line : String) :
    List (String × String) :=
  let l := pyStrip line
  if l = "" then cfg
  else if l.data.head? = some '#' then cfg
  else if l.data.contains '=' then
    let k := String.mk (l.data.takeWhile (fun c => c ≠ '='))
    let v := String.mk ((l.data.dropWhile (fun c => c ≠ '=')).tail)
    dictSet cfg (pyStrip k) (pyStrip v)
  else cfg

/-- `read_config` from `Monika(ENG).py` (lines 81-97): if the config file
is absent, write the defaults and return a copy of them; otherwise parse
the lines and then substitute the default for every key that is missing or
maps to a falsy (empty) value. -/
def read_config (file : Option (List String)) : List (String × String) :=
  match file with
  | none => DEFAULT_CONFIG
  | some lines =>
    let cfg := lines.foldl parseConfigLine []
    DEFAULT_CONFIG.foldl
      (fun c kv => if dictGetTruthy c kv.1 then c else dictSet c kv.1 kv.2) cfg

example :
    read_config (some ["# comment", "", "count_files = 7", "extra=x", "output_path="])
      = [("count_files", "7"), ("extra", "x"), ("output_path", "results"),
         ("words_per_key", "3")] := by decide
example : read_config none = DEFAULT_CONFIG := by decide

namespace Rus

/-!
The same functions embedded from `Monika(RUS).py`.  That file's logic
lines are transcribed independently here; only its user-facing message
strings (which the effect model does not carry) differ from the English
file.  Python built-ins (`strip`, `lower`, dict operations,
`dict.fromkeys`) are the interpreter's and are shared with the embedding
above.
-/

/-- The allowed alphabet literal of `Monika(RUS).py`'s `sanitize_word`. -/
def allowedChars : List Char :=
  "abcdefghijklmnopqrstuvwxyzабвгдеёжзийклмнопрстуфхцчшщъыьэюя-".data ++ [apostrophe]

/-- Core of `sanitize_word` from `Monika(RUS).py` (lines 100-108). -/
def sanitizeCore (cs : List Char) : List Char :=
  let w := ((pyStripList cs).filter (fun c => c ≠ ' ')).map pyLowerChar
  if w = [] then []
  else if w.all (fun c => Rus.allowedChars.contains c) then w
  else []

/-- `sanitize_word` from `Monika(RUS).py`. -/
def sanitize_word (word : String) : String :=
  String.mk (Rus.sanitizeCore word.data)

/-- The cleaned-token loop of `Monika(RUS).py`'s
`load_and_clean_wordlist`. -/
def cleanedTokens (lines : List String) : List String :=
  (lines.map Rus.sanitize_word).filter (fun s => s ≠ "")

/-- `load_and_clean_wordlist` from `Monika(RUS).py` (lines 110-121). -/
def load_and_clean_wordlist (file : Option (List String)) : List String :=
  match file with
  | none => []
  | some lines => dedupFirstAux [] (Rus.cleanedTokens lines)

/-- The output file path f-string of `Monika(RUS).py`. -/
def keyFileName (output_path : String) (file_idx : Nat) : String :=
  output_path ++ "/key_" ++ toString file_idx ++ ".txt"

/-- The sampling comprehension of `Monika(RUS).py`'s `generate_keys`. -/
def selectedWords (rand : Nat → Nat) (wordlist : List String)
    (words_per_key file_idx : Nat) : List String :=
  (List.range words_per_key).map (fun j =>
    wordlist.getD (rand ((file_idx - 1) * words_per_key + j) % wordlist.length) "")

/-- `generate_keys` from `Monika(RUS).py` (lines 145-158). -/
def generate_keys (rand : Nat → Nat) (wordlist : List String)
    (count_files words_per_key : Nat) (output_path : String) : GenEffect :=
  if wordlist.length = 0 then ⟨[], [], false⟩
  else
    ⟨[output_path],
     (List.range count_files).map (fun i =>
       (Rus.keyFileName output_path (i + 1),
        String.intercalate " " (Rus.selectedWords rand wordlist words_per_key (i + 1)))),
     true⟩

/-- `DEFAULT_CONFIG` of `Monika(RUS).py`. -/
def DEFAULT_CONFIG : List (String × String) :=
  [("count_files", "1"), ("words_per_key", "3"), ("output_path", "results")]

/-- One iteration of `Monika(RUS).py`'s `read_config` parsing loop. -/
def parseConfigLine (cfg : List (String × String)) (line : String) :
    List (String × String) :=
  let l := pyStrip line
  if l = "" then cfg
  else if l.data.head? = some '#' then cfg
  else if l.data.contains '=' then
    let k := String.mk (l.data.takeWhile (fun c => c ≠ '='))
    let v := String.mk ((l.data.dropWhile (fun c => c ≠ '=')).tail)
    dictSet cfg (pyStrip k) (pyStrip v)
  else cfg

/-- `read_config` from `Monika(RUS).py` (lines 81-97). -/
def read_config (file : Option (List String)) : List (String × String) :=
  match file with
  | none => Rus.DEFAULT_CONFIG
  | some lines =>
    let cfg := lines.foldl Rus.parseConfigLine []
    Rus.DEFAULT_CONFIG.foldl
      (fun c kv => if dictGetTruthy c kv.1 then c else dictSet c kv.1 kv.2) cfg

end Rus

/-! ## Helper lemmas -/

lemma string_mk_nil : String.mk ([] : List Char) = "" := rfl

/-- Every character of the sanitizer's alphabet is already lower-case
(fixed by `lower`), is not whitespace, and is not a space. -/
lemma allowed_char_props :
    ∀ c ∈ allowedChars, pyLowerChar c = c ∧ pyIsSpace c = false ∧ c ≠ ' ' := by
  decide

lemma dropWhile_eq_self_of {α : Type} (p : α → Bool) :
    ∀ l : List α, (∀ c ∈ l, p c = false) → l.dropWhile p = l := by
  intro l h
  cases l with
  | nil => rfl
  | cons a l => simp [List.dropWhile, h a (List.mem_cons_self a l)]

lemma filter_eq_self_of {α : Type} (p : α → Bool) :
    ∀ l : List α, (∀ c ∈ l, p c = true) → l.filter p = l := by
  intro l h
  exact List.filter_eq_self.mpr h

lemma map_eq_self_of {α : Type} (f : α → α) :
    ∀ l : List α, (∀ c ∈ l, f c = c) → l.map f = l := by
  intro l h
  induction l with
  | nil => rfl
  | cons a l ih =>
    simp [h a (List.mem_cons_self a l)]
    exact ih (fun c hc => h c (List.mem_cons_of_mem a hc))

lemma pyStripList_eq_self_of (l : List Char) (h : ∀ c ∈ l, pyIsSpace c = false) :
    pyStripList l = l := by
  unfold pyStripList
  rw [dropWhile_eq_self_of pyIsSpace l h]
  rw [dropWhile_eq_self_of pyIsSpace l.reverse (fun c hc => h c (List.mem_reverse.mp hc))]
  exact List.reverse_reverse l

/-- A list of allowed characters passes the sanitizer unchanged. -/
lemma sanitizeCore_fixed (cs : List Char) (hne : cs ≠ [])
    (hall : ∀ c ∈ cs, allowedChars.contains c = true) : sanitizeCore cs = cs := by
  have hprops : ∀ c ∈ cs, pyLowerChar c = c ∧ pyIsSpace c = false ∧ c ≠ ' ' := by
    intro c hc
    exact allowed_char_props c (List.elem_iff.mp (hall c hc))
  have hstrip : pyStripList cs = cs :=
    pyStripList_eq_self_of cs (fun c hc => (hprops c hc).2.1)
  have hfilter : cs.filter (fun c => c ≠ ' ') = cs :=
    filter_eq_self_of _ cs (fun c hc => by simp [(hprops c hc).2.2])
  have hmap : cs.map pyLowerChar = cs :=
    map_eq_self_of _ cs (fun c hc => (hprops c hc).1)
  unfold sanitizeCore
  simp only [hstrip, hfilter, hmap]
  rw [if_neg hne, if_pos (List.all_eq_true.mpr hall)]

/-- The sanitizer's result is empty or consists of allowed characters. -/
lemma sanitizeCore_cases (cs : List Char) :
    sanitizeCore cs = [] ∨
      (sanitizeCore cs ≠ [] ∧ ∀ c ∈ sanitizeCore cs, allowedChars.contains c = true) := by
  unfold sanitizeCore
  set w := ((pyStripList cs).filter (fun c => c ≠ ' ')).map pyLowerChar with hw
  by_cases h1 : w = []
  · left; simp [h1]
  · by_cases h2 : w.all (fun c => allowedChars.contains c) = true
    · right
      rw [if_neg h1, if_pos h2]
      exact ⟨h1, List.all_eq_true.mp h2⟩
    · left
      rw [if_neg h1, if_neg h2]

lemma dedupFirstAux_mem (l : List String) :
    ∀ (seen : List String) (x : String),
      x ∈ dedupFirstAux seen l ↔ x ∈ l ∧ x ∉ seen := by
  induction l with
  | nil => intro seen x; simp [dedupFirstAux]
  | cons a l ih =>
    intro seen x
    by_cases ha : a ∈ seen
    · rw [dedupFirstAux, if_pos ha, ih]
      constructor
      · rintro ⟨hl, hs⟩
        exact ⟨List.mem_cons_of_mem a hl, hs⟩
      · rintro ⟨h, hs⟩
        rcases List.mem_cons.mp h with he | hl
        · exact absurd (he ▸ ha) hs
        · exact ⟨hl, hs⟩
    · rw [dedupFirstAux, if_neg ha]
      constructor
      · intro h
        rcases List.mem_cons.mp h with he | hd
        · exact ⟨he ▸ List.mem_cons_self a l, he ▸ ha⟩
        · rcases (ih (a :: seen) x).mp hd with ⟨hl, hs⟩
          exact ⟨List.mem_cons_of_mem a hl,
            fun hx => hs (List.mem_cons_of_mem a hx)⟩
      · rintro ⟨h, hs⟩
        by_cases hx : x = a
        · exact hx ▸ List.mem_cons_self a _
        · rcases List.mem_cons.mp h with he | hl
          · exact absurd he hx
          · exact List.mem_cons_of_mem a
              ((ih (a :: seen) x).mpr
                ⟨hl, fun hm => (List.mem_cons.mp hm).elim hx hs⟩)

lemma dedupFirstAux_sublist (l : List String) :
    ∀ seen : List String, List.Sublist (dedupFirstAux seen l) l := by
  induction l with
  | nil => intro seen; exact List.Sublist.refl []
  | cons a l ih =>
    intro seen
    by_cases ha : a ∈ seen
    · rw [dedupFirstAux, if_pos ha]
      exact List.Sublist.cons a (ih seen)
    · rw [dedupFirstAux, if_neg ha]
      exact List.Sublist.cons₂ a (ih (a :: seen))

lemma dedupFirstAux_nodup (l : List String) :
    ∀ seen : List String, (dedupFirstAux seen l).Nodup := by
  induction l with
  | nil => intro seen; simp [dedupFirstAux]
  | cons a l ih =>
    intro seen
    by_cases ha : a ∈ seen
    · rw [dedupFirstAux, if_pos ha]
      exact ih seen
    · rw [dedupFirstAux, if_neg ha]
      refine List.nodup_cons.mpr ⟨?_, ih (a :: seen)⟩
      intro hmem
      exact ((dedupFirstAux_mem l (a :: seen) a).mp hmem).2
        (List.mem_cons_self a seen)

lemma foldl_dedup_invariant (l : List String) :
    ∀ acc seen : List String, (∀ x, x ∈ seen ↔ x ∈ acc) →
      l.foldl (fun acc a => if a ∈ acc then acc else acc ++ [a]) acc
        = acc ++ dedupFirstAux seen l := by
  induction l with
  | nil => intro acc seen _; simp [dedupFirstAux]
  | cons a l ih =>
    intro acc seen h
    by_cases ha : a ∈ acc
    · rw [List.foldl_cons]
      simp only [if_pos ha]
      rw [dedupFirstAux, if_pos ((h a).mpr ha), ih acc seen h]
    · rw [List.foldl_cons]
      simp only [if_neg ha]
      rw [dedupFirstAux, if_neg (fun hs => ha ((h a).mp hs))]
      rw [ih (acc ++ [a]) (a :: seen)
        (fun x => by simp [List.mem_cons, h x, or_comm])]
      simp

/-- `dedupFirstAux [] l` is the scan that keeps first occurrences. -/
lemma dedupFirstAux_eq_spec (l : List String) :
    dedupFirstAux [] l = dedupFirstSpec l := by
  rw [dedupFirstSpec, foldl_dedup_invariant l [] [] (fun x => Iff.rfl)]
  simp

lemma eraseDups_loop_eq (l : List String) : ∀ r : List String,
    List.eraseDups.loop l r = r.reverse ++ dedupFirstAux r l := by
  induction l with
  | nil => intro r; simp [List.eraseDups.loop, dedupFirstAux]
  | cons a l ih =>
    intro r
    by_cases ha : a ∈ r
    · have he : List.elem a r = true := List.elem_iff.mpr ha
      rw [List.eraseDups.loop]
      simp only [he, dedupFirstAux, if_pos ha]
      exact ih r
    · have he : List.elem a r = false := by
        simpa using fun hm => ha (List.elem_iff.mp hm)
      rw [List.eraseDups.loop]
      simp only [he, dedupFirstAux, if_neg ha]
      rw [ih (a :: r)]
      simp

/-- `dedupFirstAux [] l` is also core's `List.eraseDups`, which keeps the
first occurrence of each duplicated element. -/
lemma dedupFirstAux_eq_eraseDups (l : List String) :
    dedupFirstAux [] l = l.eraseDups := by
  rw [List.eraseDups, eraseDups_loop_eq l []]
  rfl

lemma selectedWords_length (rand : Nat → Nat) (wordlist : List String)
    (words_per_key file_idx : Nat) :
    (selectedWords rand wordlist words_per_key file_idx).length = words_per_key := by
  simp [selectedWords]

lemma selectedWords_mem (rand : Nat → Nat) (wordlist : List String)
    (words_per_key file_idx : Nat) (hw : wordlist ≠ []) :
    ∀ t ∈ selectedWords rand wordlist words_per_key file_idx, t ∈ wordlist := by
  intro t ht
  simp only [selectedWords, List.mem_map, List.mem_range] at ht
  obtain ⟨j, _, rfl⟩ := ht
  have hlen : 0 < wordlist.length := List.length_pos.mpr hw
  have hidx : rand ((file_idx - 1) * words_per_key + j) % wordlist.length
      < wordlist.length := Nat.mod_lt _ hlen
  rw [List.getD_eq_getElem?_getD, List.getElem?_eq_getElem hidx]
  exact List.getElem_mem hidx

lemma string_mk_eq_empty_iff (l : List Char) : String.mk l = "" ↔ l = [] := by
  constructor
  · intro h
    have h2 := congrArg String.data h
    simpa using h2
  · intro h
    rw [h]

/-! ## Claim theorems -/

/-- C2: for every raw input line, `sanitize_word` returns either the empty
string or a non-empty string whose characters all lie in the allowed set,
are all already lower-case (fixed by `lower`), and none of which is a
whitespace character. -/
theorem sanitize_word_output_allowed (w : String) :
    sanitize_word w = "" ∨
      (sanitize_word w ≠ "" ∧
        ∀ c ∈ (sanitize_word w).data,
          allowedChars.contains c = true ∧ pyLowerChar c = c ∧ pyIsSpace c = false) := by
  rcases sanitizeCore_cases w.data with h | ⟨hne, hall⟩
  · left
    rw [sanitize_word, h]
  · right
    refine ⟨fun hcontra => hne ((string_mk_eq_empty_iff _).mp hcontra), ?_⟩
    intro c hc
    have hmem : c ∈ sanitizeCore w.data := hc
    rcases allowed_char_props c (List.elem_iff.mp (hall c hmem)) with ⟨h1, h2, _⟩
    exact ⟨hall c hmem, h1, h2⟩

/-- C2 witness: the theorem applied at the concrete input `"Hello"`. -/
theorem sanitize_word_output_allowed_witness :
    sanitize_word "Hello" = "" ∨
      (sanitize_word "Hello" ≠ "" ∧
        ∀ c ∈ (sanitize_word "Hello").data,
          allowedChars.contains c = true ∧ pyLowerChar c = c ∧ pyIsSpace c = false) :=
  sanitize_word_output_allowed "Hello"

/-- C3 counterexample: on the input `"he\tllo"` (an internal tab) the code
returns the empty string while the spec's algorithm ("remove all internal
whitespace") returns `"hello"`: `sanitize_word` does not implement the
spec's algorithm exactly. -/
theorem sanitize_word_spec_counterexample :
    sanitize_word "he\tllo" = "" ∧ sanitize_spec "he\tllo" = "hello" ∧
      sanitize_word "he\tllo" ≠ sanitize_spec "he\tllo" := by
  decide

/-- C3 amended: `sanitize_word` strips leading/trailing whitespace, removes
internal space characters (U+0020) only — not all internal whitespace —
lower-cases, and returns empty if the result is empty or has any character
outside the allowed set (so a word with internal non-space whitespace is
rejected whole); the input `"He llo"` yields `"hello"`. -/
theorem sanitize_word_amended_spec :
    (∀ w, sanitize_word w = sanitize_amended w) ∧ sanitize_word "He llo" = "hello" := by
  refine ⟨?_, by decide⟩
  intro w
  rw [sanitize_word, sanitizeCore, sanitize_amended]
  simp only [apply_ite String.mk]

/-- C3 witness: the amended theorem applied at the concrete input
`"  Wor ld  "`. -/
theorem sanitize_word_amended_spec_witness :
    sanitize_word "  Wor ld  " = sanitize_amended "  Wor ld  " ∧
      sanitize_word "  Wor ld  " = "world" :=
  ⟨sanitize_word_amended_spec.1 "  Wor ld  ", by decide⟩

/-- C10: `sanitize_word` is idempotent, and every element of the list
returned by `load_and_clean_wordlist` is a fixed point of it. -/
theorem sanitize_word_idempotent :
    (∀ w, sanitize_word (sanitize_word w) = sanitize_word w) ∧
      (∀ lines x, x ∈ load_and_clean_wordlist (some lines) → sanitize_word x = x) := by
  have hidem : ∀ w : String, sanitize_word (sanitize_word w) = sanitize_word w := by
    intro w
    have hdata : ∀ l : List Char, (String.mk l).data = l := fun _ => rfl
    simp only [sanitize_word, hdata]
    rcases sanitizeCore_cases w.data with h | ⟨hne, hall⟩
    · rw [h]
      rfl
    · rw [sanitizeCore_fixed _ hne hall]
  refine ⟨hidem, ?_⟩
  intro lines x hx
  have hx1 : x ∈ cleanedTokens lines :=
    ((dedupFirstAux_mem (cleanedTokens lines) [] x).mp hx).1
  simp only [cleanedTokens, List.mem_filter, List.mem_map] at hx1
  obtain ⟨⟨raw, _, rfl⟩, _⟩ := hx1
  exact hidem raw

/-- C10 witness: idempotence at `"He llo"` and fixed-point property for the
element `"hello"` of a loaded word list. -/
theorem sanitize_word_idempotent_witness :
    sanitize_word (sanitize_word "He llo") = sanitize_word "He llo" ∧
      sanitize_word "hello" = "hello" :=
  ⟨sanitize_word_idempotent.1 "He llo",
   sanitize_word_idempotent.2 ["hello"] "hello" (by decide)⟩

/-- C4: `load_and_clean_wordlist` returns the sanitized tokens with
duplicates removed, preserving first-occurrence order: the result equals
the left-to-right scan `dedupFirstSpec` that keeps each element's first
occurrence (and equally core's `List.eraseDups`), and in particular is a
duplicate-free sublist of the cleaned token sequence with exactly its
members; for a missing file it returns `[]`. -/
theorem load_and_clean_wordlist_spec :
    (∀ lines : List String,
        load_and_clean_wordlist (some lines) = dedupFirstSpec (cleanedTokens lines) ∧
        load_and_clean_wordlist (some lines) = (cleanedTokens lines).eraseDups ∧
        (load_and_clean_wordlist (some lines)).Nodup ∧
        List.Sublist (load_and_clean_wordlist (some lines)) (cleanedTokens lines) ∧
        (∀ x, x ∈ load_and_clean_wordlist (some lines) ↔ x ∈ cleanedTokens lines)) ∧
      load_and_clean_wordlist none = [] := by
  refine ⟨fun lines => ⟨?_, ?_, ?_, ?_, fun x => ?_⟩, rfl⟩
  · exact dedupFirstAux_eq_spec (cleanedTokens lines)
  · exact dedupFirstAux_eq_eraseDups (cleanedTokens lines)
  · exact dedupFirstAux_nodup (cleanedTokens lines) []
  · exact dedupFirstAux_sublist (cleanedTokens lines) []
  · rw [load_and_clean_wordlist, dedupFirstAux_mem]
    simp

/-- C4 witness: the missing-file case of the theorem. -/
theorem load_and_clean_wordlist_spec_witness :
    load_and_clean_wordlist none = [] :=
  load_and_clean_wordlist_spec.2

/-- C1: with a non-empty wordlist and positive parameters, `generate_keys`
succeeds and writes exactly `count_files` files, the `i`-th (0-based) named
`output_path/key_{i+1}.txt` with content the space-join of the
`words_per_key` sampled words, every sampled word a member of the
wordlist. -/
theorem generate_keys_writes_spec (rand : Nat → Nat) (wordlist : List String)
    (count_files words_per_key : Nat) (output_path : String)
    (hw : wordlist ≠ []) (_hc : 1 ≤ count_files) (_hk : 1 ≤ words_per_key) :
    (generate_keys rand wordlist count_files words_per_key output_path).ok = true ∧
    (generate_keys rand wordlist count_files words_per_key output_path).writes.length
      = count_files ∧
    (generate_keys rand wordlist count_files words_per_key output_path).writes
      = (List.range count_files).map (fun i =>
          (keyFileName output_path (i + 1),
           String.intercalate " " (selectedWords rand wordlist words_per_key (i + 1)))) ∧
    (∀ i, (selectedWords rand wordlist words_per_key i).length = words_per_key) ∧
    (∀ i t, t ∈ selectedWords rand wordlist words_per_key i → t ∈ wordlist) := by
  have hlen : wordlist.length ≠ 0 := fun h => hw (List.length_eq_zero.mp h)
  rw [generate_keys, if_neg hlen]
  refine ⟨rfl, by simp, rfl, fun i => selectedWords_length rand wordlist words_per_key i,
    fun i => selectedWords_mem rand wordlist words_per_key i hw⟩

/-- C1 witness: the theorem applied at a concrete oracle, wordlist and
parameters. -/
theorem generate_keys_writes_spec_witness :
    (generate_keys (fun k => k) ["alpha", "beta"] 2 3 "out").ok = true ∧
      (generate_keys (fun k => k) ["alpha", "beta"] 2 3 "out").writes.length = 2 :=
  ⟨(generate_keys_writes_spec (fun k => k) ["alpha", "beta"] 2 3 "out"
      (by decide) (by decide) (by decide)).1,
   (generate_keys_writes_spec (fun k => k) ["alpha", "beta"] 2 3 "out"
      (by decide) (by decide) (by decide)).2.1⟩

/-- C5: with an empty wordlist, `generate_keys` creates no directory,
writes no file, and reports failure, for any parameters. -/
theorem generate_keys_empty_wordlist (rand : Nat → Nat)
    (count_files words_per_key : Nat) (output_path : String) :
    (generate_keys rand [] count_files words_per_key output_path).dirsCreated = [] ∧
    (generate_keys rand [] count_files words_per_key output_path).writes = [] ∧
    (generate_keys rand [] count_files words_per_key output_path).ok = false :=
  ⟨rfl, rfl, rfl⟩

/-- C6: with a singleton wordlist `[w]` and `words_per_key = 5`,
`generate_keys` writes at least one file and every written file's content
is `w` repeated 5 times, space-joined. -/
theorem generate_keys_singleton (rand : Nat → Nat) (w : String)
    (count_files : Nat) (output_path : String) (hc : 1 ≤ count_files) :
    (generate_keys rand [w] count_files 5 output_path).writes ≠ [] ∧
    ∀ e ∈ (generate_keys rand [w] count_files 5 output_path).writes,
      e.2 = String.intercalate " " (List.replicate 5 w) := by
  have hsel : ∀ i, selectedWords rand [w] 5 i = List.replicate 5 w := by
    intro i
    apply List.eq_replicate_iff.mpr
    refine ⟨selectedWords_length rand [w] 5 i, ?_⟩
    intro b hb
    simp only [selectedWords, List.mem_map, List.mem_range] at hb
    obtain ⟨j, _, rfl⟩ := hb
    simp [Nat.mod_one]
  rw [generate_keys, if_neg (by simp)]
  constructor
  · simp only [ne_eq, List.map_eq_nil_iff, List.range_eq_nil]
    omega
  · intro e he
    simp only [List.mem_map, List.mem_range] at he
    obtain ⟨i, _, rfl⟩ := he
    simp [hsel]

/-- C6 witness: the theorem applied at a concrete oracle and word. -/
theorem generate_keys_singleton_witness :
    (generate_keys (fun _ => 0) ["alpha"] 1 5 "out").writes ≠ [] :=
  (generate_keys_singleton (fun _ => 0) "alpha" 1 "out" (by decide)).1

/-- C8 failing input: `"²"` (U+00B2, SUPERSCRIPT TWO) has the Unicode
Numeric_Type=Digit property, so Python's `"²".isdigit()` is `True`, but
`int("²")` raises `ValueError`; hence `is_positive_int_str` itself raises
and `prompt_positive_int` aborts instead of falling back to the default. -/
theorem prompt_positive_int_superscript_aborts :
    is_positive_int_str "²" = none ∧ prompt_positive_int "²" 3 = none := by
  decide

/-- C9: the Russian source file's `sanitize_word`,
`load_and_clean_wordlist`, `read_config` and `generate_keys` are
extensionally equal to the English file's (they differ only in user-facing
message text, which carries no data). -/
theorem eng_rus_equivalence :
    (∀ w, Rus.sanitize_word w = sanitize_word w) ∧
    (∀ f, Rus.load_and_clean_wordlist f = load_and_clean_wordlist f) ∧
    (∀ f, Rus.read_config f = read_config f) ∧
    (∀ (rand : Nat → Nat) (wordlist : List String)
        (count_files words_per_key : Nat) (output_path : String),
      Rus.generate_keys rand wordlist count_files words_per_key output_path
        = generate_keys rand wordlist count_files words_per_key output_path) :=
  ⟨fun _ => rfl, fun _ => rfl, fun _ => rfl, fun _ _ _ _ _ => rfl⟩

/-- C9 witness: the equivalence applied at a concrete input. -/
theorem eng_rus_equivalence_witness :
    Rus.sanitize_word "Hello" = sanitize_word "Hello" :=
  eng_rus_equivalence.1 "Hello"
